import Mathlib

/-!
Verification of the PatroSum game core (src/main.c): the question generator,
the answer buffer, the keypad-driven game state machine, the answer parser,
and the easing function used for the question animation.

The C program is a single-threaded loop.  We embed one loop-body iteration
as a pure function from the mutable program state (the global variables
`currentGameState`, `num1`, `num2`, `correctAnswer`, `questionStr`,
`answerBuffer`, `questionY`) together with the iteration's inputs (the two
`rand()` draws consumed by `generateQuestion`, and the `KeyEvent` returned
by `keypadScan`) to the next state plus the list of tones played via
`playTone` during the iteration.  Timing (`sleep_ms`) and the purely
graphical calls (`drawTextCentered`, LEDs, ...) have no effect on this
state and are not modelled, except that the per-frame update of `questionY`
by `approach` is kept because the spec constrains it.
-/

namespace PatroSum

/-- The constant 4x4 key map `keypad_key_map` from src/main.c. -/
def keypad_key_map (r c : Fin 4) : Char :=
  match r, c with
  | 0, 0 => '1' | 0, 1 => '2' | 0, 2 => '3' | 0, 3 => 'A'
  | 1, 0 => '4' | 1, 1 => '5' | 1, 2 => '6' | 1, 3 => 'B'
  | 2, 0 => '7' | 2, 1 => '8' | 2, 2 => '9' | 2, 3 => 'C'
  | 3, 0 => '*' | 3, 1 => '0' | 3, 2 => '#' | 3, 3 => 'D'

/-- A keypad scan result (`KeyEvent` from keypad.h): whether a key is down
and its row/column. -/
structure KeyEvent where
  pressed : Bool
  row : Fin 4
  col : Fin 4
deriving DecidableEq

/-- The `GameState` enum from src/main.c. -/
inductive GameState where
  | GENERATE_NEW_QUESTION
  | WAITING_FOR_INPUT
  | CHECK_ANSWER
deriving DecidableEq

/-- `sizeof(answerBuffer)` in src/main.c: `char answerBuffer[10]`. -/
def answerBufferSize : Nat := 10

/-- The mutable program state of src/main.c: the state-machine tag, the
current question (`num1`, `num2`, `correctAnswer`, `questionStr`), the
player's answer string (`answerBuffer`, modelled as the list of characters
before the NUL terminator), and the animated question position
`questionY`. -/
structure GameCtx where
  state : GameState
  num1 : Int
  num2 : Int
  correctAnswer : Int
  questionStr : String
  answerBuffer : List Char
  questionY : ℚ
deriving DecidableEq

/-- One `playTone(freq, dur)` call. -/
structure Tone where
  freq : Nat
  dur : Nat
deriving DecidableEq

/-- `generateQuestion()` from src/main.c, with the two `rand()` draws made
explicit inputs (`rand()` returns a nonnegative int, so a natural number):
`num1 = rand() % 1000; num2 = rand() % 1000; correctAnswer = num1 + num2;`
followed by the `sprintf` of `questionStr`. -/
def generateQuestion (r1 r2 : Nat) (c : GameCtx) : GameCtx :=
  let n1 : Int := (r1 % 1000 : Nat)
  let n2 : Int := (r2 % 1000 : Nat)
  { c with
    num1 := n1
    num2 := n2
    correctAnswer := n1 + n2
    questionStr := toString n1 ++ " + " ++ toString n2 ++ " = ?" }

/-- C library `atoi` on the buffer contents: skip leading whitespace, an
optional sign, then the maximal leading run of decimal digits (empty run
parses to 0). -/
def atoi (s : List Char) : Int :=
  let t := s.dropWhile Char.isWhitespace
  if t.head? = some '-' then
    -(((t.tail.takeWhile Char.isDigit).foldl (fun a ch => a * 10 + (ch.toNat - 48)) 0 : Nat) : Int)
  else if t.head? = some '+' then
    (((t.tail.takeWhile Char.isDigit).foldl (fun a ch => a * 10 + (ch.toNat - 48)) 0 : Nat) : Int)
  else
    (((t.takeWhile Char.isDigit).foldl (fun a ch => a * 10 + (ch.toNat - 48)) 0 : Nat) : Int)

/-- The `WAITING_FOR_INPUT` case of the switch in src/main.c: on a pressed
key, look it up in the key map; a digit with room in the buffer is appended
(with a 440 Hz beep), `A` moves to `CHECK_ANSWER`, `*` clears the buffer
(with a 220 Hz beep), and anything else is ignored. -/
def waitingStep (c : GameCtx) (evt : KeyEvent) : GameCtx × List Tone :=
  if evt.pressed then
    let key := keypad_key_map evt.row evt.col
    let len := c.answerBuffer.length
    if '0' ≤ key ∧ key ≤ '9' ∧ len < answerBufferSize - 1 then
      ({ c with answerBuffer := c.answerBuffer ++ [key] }, [⟨440, 50⟩])
    else if key = 'A' then
      ({ c with state := GameState.CHECK_ANSWER }, [])
    else if key = '*' then
      ({ c with answerBuffer := [] }, [⟨220, 50⟩])
    else (c, [])
  else (c, [])

/-- The tone sequence played on a correct answer (C5, E5, G5). -/
def successTones : List Tone := [⟨523, 150⟩, ⟨659, 150⟩, ⟨784, 150⟩]

/-- The tone played on a wrong answer (C4 error tone). -/
def failTones : List Tone := [⟨261, 500⟩]

/-- The `CHECK_ANSWER` case of the switch in src/main.c: parse the buffer
with `atoi`, compare to `correctAnswer` with `==`, play the success or
failure feedback, and return to `GENERATE_NEW_QUESTION`. -/
def checkStep (c : GameCtx) : GameCtx × List Tone :=
  let playerAnswer := atoi c.answerBuffer
  if playerAnswer = c.correctAnswer then
    ({ c with state := GameState.GENERATE_NEW_QUESTION }, successTones)
  else
    ({ c with state := GameState.GENERATE_NEW_QUESTION }, failTones)

/-- The `GENERATE_NEW_QUESTION` case of the switch in src/main.c: generate
a question, clear `answerBuffer` (`memset`), move to `WAITING_FOR_INPUT`,
and reset `questionY` to 20. -/
def generateStep (r1 r2 : Nat) (c : GameCtx) : GameCtx :=
  let c1 := generateQuestion r1 r2 c
  { c1 with
    answerBuffer := []
    state := GameState.WAITING_FOR_INPUT
    questionY := 20 }

/-- Modelled from the spec: the easing function `approach(current, target,
maxDelta)` from approach.h (bitdog-patroLibs), whose implementation is not
under src/.  Per the spec contract it returns `target` when
`|target - current| <= maxDelta` and otherwise moves `current` by exactly
`maxDelta` toward `target`.  Floats are modelled by exact rationals. -/
def approach (current target maxDelta : ℚ) : ℚ :=
  if |target - current| ≤ maxDelta then target
  else if current < target then current + maxDelta
  else current - maxDelta

/-- Iterating `approach` (one call per main-loop frame, as in src/main.c). -/
def approachIter (current target maxDelta : ℚ) : Nat → ℚ
  | 0 => current
  | n + 1 => approach (approachIter current target maxDelta n) target maxDelta

/-- The drawing block after the switch in src/main.c: while waiting for
input, `questionY` is eased toward 12 (buffer nonempty) or 20 (buffer
empty) by `approach(questionY, _newQuestionY, 1)`. -/
def renderPhase (c : GameCtx) : GameCtx :=
  if c.state = GameState.WAITING_FOR_INPUT then
    let newQuestionY : ℚ := if c.answerBuffer.length > 0 then 12 else 20
    { c with questionY := approach c.questionY newQuestionY 1 }
  else c

/-- One full iteration of the `while (true)` loop in src/main.c: the
state-machine switch followed by the drawing block. -/
def loopStep (c : GameCtx) (r1 r2 : Nat) (evt : KeyEvent) : GameCtx × List Tone :=
  match c.state with
  | GameState.GENERATE_NEW_QUESTION => (renderPhase (generateStep r1 r2 c), [])
  | GameState.WAITING_FOR_INPUT =>
      let p := waitingStep c evt
      (renderPhase p.1, p.2)
  | GameState.CHECK_ANSWER =>
      let p := checkStep c
      (renderPhase p.1, p.2)

/-- The buffer invariant from the spec: every element is a decimal digit
and the length never exceeds capacity - 1 = 9. -/
def BufferInv (c : GameCtx) : Prop :=
  c.answerBuffer.length ≤ answerBufferSize - 1 ∧
    ∀ ch ∈ c.answerBuffer, '0' ≤ ch ∧ ch ≤ '9'

lemma waitingStep_not_pressed (c : GameCtx) (evt : KeyEvent)
    (hp : evt.pressed = false) : waitingStep c evt = (c, []) := by
  simp [waitingStep, hp]

lemma waitingStep_digit (c : GameCtx) (evt : KeyEvent)
    (hp : evt.pressed = true)
    (hd : '0' ≤ keypad_key_map evt.row evt.col ∧ keypad_key_map evt.row evt.col ≤ '9')
    (hl : c.answerBuffer.length < answerBufferSize - 1) :
    waitingStep c evt =
      ({ c with answerBuffer := c.answerBuffer ++ [keypad_key_map evt.row evt.col] },
        [⟨440, 50⟩]) := by
  simp only [waitingStep, hp, if_true]
  rw [if_pos ⟨hd.1, hd.2, hl⟩]

lemma waitingStep_digit_full (c : GameCtx) (evt : KeyEvent)
    (hp : evt.pressed = true)
    (hd : '0' ≤ keypad_key_map evt.row evt.col ∧ keypad_key_map evt.row evt.col ≤ '9')
    (hl : ¬ c.answerBuffer.length < answerBufferSize - 1) :
    waitingStep c evt = (c, []) := by
  have hA : keypad_key_map evt.row evt.col ≠ 'A' :=
    ne_of_lt (lt_of_le_of_lt hd.2 (by decide))
  have hS : keypad_key_map evt.row evt.col ≠ '*' :=
    (ne_of_lt (lt_of_lt_of_le (by decide : ('*' : Char) < '0') hd.1)).symm
  simp only [waitingStep, hp, if_true]
  rw [if_neg (by intro h; exact hl h.2.2), if_neg hA, if_neg hS]

lemma waitingStep_A (c : GameCtx) (evt : KeyEvent)
    (hp : evt.pressed = true)
    (hk : keypad_key_map evt.row evt.col = 'A') :
    waitingStep c evt = ({ c with state := GameState.CHECK_ANSWER }, []) := by
  simp only [waitingStep, hp, if_true, hk]
  rw [if_neg (by intro h; exact absurd h.2.1 (by decide))]

lemma waitingStep_star (c : GameCtx) (evt : KeyEvent)
    (hp : evt.pressed = true)
    (hk : keypad_key_map evt.row evt.col = '*') :
    waitingStep c evt = ({ c with answerBuffer := [] }, [⟨220, 50⟩]) := by
  simp only [waitingStep, hp, if_true, hk]
  rw [if_neg (by intro h; exact absurd h.1 (by decide)), if_neg (by decide)]

lemma waitingStep_other (c : GameCtx) (evt : KeyEvent)
    (hp : evt.pressed = true)
    (hd : ¬ ('0' ≤ keypad_key_map evt.row evt.col ∧ keypad_key_map evt.row evt.col ≤ '9'))
    (hA : keypad_key_map evt.row evt.col ≠ 'A')
    (hS : keypad_key_map evt.row evt.col ≠ '*') :
    waitingStep c evt = (c, []) := by
  simp only [waitingStep, hp, if_true]
  rw [if_neg (by intro h; exact hd ⟨h.1, h.2.1⟩), if_neg hA, if_neg hS]

lemma checkStep_eq (d : GameCtx) :
    checkStep d = ({ d with state := GameState.GENERATE_NEW_QUESTION },
      if atoi d.answerBuffer = d.correctAnswer then successTones else failTones) := by
  by_cases h : atoi d.answerBuffer = d.correctAnswer <;> simp [checkStep, h]

/-- C1: every generated question has `correctAnswer = num1 + num2` and both
operands in [0, 999]. -/
theorem generateQuestion_correct (r1 r2 : Nat) (c : GameCtx) :
    (generateQuestion r1 r2 c).correctAnswer =
        (generateQuestion r1 r2 c).num1 + (generateQuestion r1 r2 c).num2 ∧
      0 ≤ (generateQuestion r1 r2 c).num1 ∧ (generateQuestion r1 r2 c).num1 ≤ 999 ∧
      0 ≤ (generateQuestion r1 r2 c).num2 ∧ (generateQuestion r1 r2 c).num2 ≤ 999 := by
  have h1 : r1 % 1000 < 1000 := Nat.mod_lt _ (by norm_num)
  have h2 : r2 % 1000 < 1000 := Nat.mod_lt _ (by norm_num)
  simp only [generateQuestion]
  refine ⟨by trivial, ?_, ?_, ?_, ?_⟩ <;> omega

/-- A concrete mid-game context used to instantiate the theorems: question
3 + 4, buffer "7". -/
def sampleCtx : GameCtx where
  state := GameState.WAITING_FOR_INPUT
  num1 := 3
  num2 := 4
  correctAnswer := 7
  questionStr := "3 + 4 = ?"
  answerBuffer := ['7']
  questionY := 20

/-- The same context with buffer "3". -/
def sampleCtx3 : GameCtx := { sampleCtx with answerBuffer := ['3'] }

/-- The same context with a full 9-digit buffer. -/
def fullCtx : GameCtx :=
  { sampleCtx with answerBuffer := ['1', '2', '3', '4', '5', '6', '7', '8', '9'] }

/-- A press of the key at row 0, column 3 (the `A` key). -/
def keyA : KeyEvent := ⟨true, 0, 3⟩

/-- A press of the key at row 3, column 0 (the `*` key). -/
def keyStar : KeyEvent := ⟨true, 3, 0⟩

/-- A press of the key at row 3, column 2 (the `#` key). -/
def keyHash : KeyEvent := ⟨true, 3, 2⟩

/-- A press of the key at row 0, column 2 (the `3` key). -/
def key3 : KeyEvent := ⟨true, 0, 2⟩

/-- C2: in `WAITING_FOR_INPUT` the `A` key moves the machine to
`CHECK_ANSWER` leaving the buffer intact; `CHECK_ANSWER` parses the buffer
with `atoi` and takes the success path exactly when the result equals
`correctAnswer` (the failure path otherwise), then returns to
`GENERATE_NEW_QUESTION`, whose step clears the buffer. -/
theorem submit_checks_answer (c : GameCtx) (evt : KeyEvent)
    (hs : c.state = GameState.WAITING_FOR_INPUT)
    (hp : evt.pressed = true)
    (hk : keypad_key_map evt.row evt.col = 'A') :
    (waitingStep c evt).1.state = GameState.CHECK_ANSWER ∧
    (waitingStep c evt).1.answerBuffer = c.answerBuffer ∧
    (∀ d : GameCtx,
      ((checkStep d).2 = successTones ↔ atoi d.answerBuffer = d.correctAnswer) ∧
      ((checkStep d).2 = failTones ↔ atoi d.answerBuffer ≠ d.correctAnswer) ∧
      (checkStep d).1.state = GameState.GENERATE_NEW_QUESTION) ∧
    (∀ (r1 r2 : Nat) (d : GameCtx), (generateStep r1 r2 d).answerBuffer = []) := by
  refine ⟨?_, ?_, ?_, fun r1 r2 d => rfl⟩
  · rw [waitingStep_A c evt hp hk]
  · rw [waitingStep_A c evt hp hk]
  · intro d
    rw [checkStep_eq]
    by_cases h : atoi d.answerBuffer = d.correctAnswer
    · simp [h, successTones, failTones]
    · simp [h, successTones, failTones]

/-- Witness for C2: submitting the buffer "7" against the question 3 + 4
takes the success path and the machine cycles back with a cleared buffer. -/
theorem submit_checks_answer_witness :
    (waitingStep sampleCtx keyA).1.state = GameState.CHECK_ANSWER ∧
    (waitingStep sampleCtx keyA).1.answerBuffer = ['7'] ∧
    (checkStep (waitingStep sampleCtx keyA).1).2 = successTones ∧
    (checkStep (waitingStep sampleCtx keyA).1).1.state = GameState.GENERATE_NEW_QUESTION ∧
    (generateStep 5 6 (checkStep (waitingStep sampleCtx keyA).1).1).answerBuffer = [] := by
  have h := submit_checks_answer sampleCtx keyA rfl rfl (by decide)
  exact ⟨h.1, h.2.1, (h.2.2.1 _).1.mpr (by decide), (h.2.2.1 _).2.2, h.2.2.2 5 6 _⟩

/-- C4: in `WAITING_FOR_INPUT`, a digit press with the buffer full, or any
key other than a digit, `*` or `A`, leaves the whole context (buffer,
question, state) unchanged and plays no tone. -/
theorem ignored_key_no_effect (c : GameCtx) (evt : KeyEvent)
    (hs : c.state = GameState.WAITING_FOR_INPUT)
    (hp : evt.pressed = true)
    (h : (('0' ≤ keypad_key_map evt.row evt.col ∧ keypad_key_map evt.row evt.col ≤ '9') ∧
            c.answerBuffer.length = answerBufferSize - 1) ∨
          (¬ ('0' ≤ keypad_key_map evt.row evt.col ∧ keypad_key_map evt.row evt.col ≤ '9') ∧
            keypad_key_map evt.row evt.col ≠ '*' ∧ keypad_key_map evt.row evt.col ≠ 'A')) :
    waitingStep c evt = (c, []) := by
  rcases h with ⟨hd, hfull⟩ | ⟨hd, hS, hA⟩
  · exact waitingStep_digit_full c evt hp hd (by omega)
  · exact waitingStep_other c evt hp hd hA hS

/-- Witness for C4: a digit pressed on a full buffer, and a `#` press, both
leave the context unchanged with no tone. -/
theorem ignored_key_no_effect_witness :
    waitingStep fullCtx key3 = (fullCtx, []) ∧
    waitingStep sampleCtx keyHash = (sampleCtx, []) :=
  ⟨ignored_key_no_effect fullCtx key3 rfl rfl (Or.inl ⟨by decide, by decide⟩),
    ignored_key_no_effect sampleCtx keyHash rfl rfl (Or.inr ⟨by decide, by decide, by decide⟩)⟩

/-- C7: in `WAITING_FOR_INPUT`, the `*` key empties the buffer, keeps the
state and the current question unchanged, and plays the 220 Hz clear tone,
which is distinct from the 440 Hz digit-accepted tone. -/
theorem star_clears_buffer (c : GameCtx) (evt : KeyEvent)
    (hs : c.state = GameState.WAITING_FOR_INPUT)
    (hp : evt.pressed = true)
    (hk : keypad_key_map evt.row evt.col = '*') :
    (waitingStep c evt).1.answerBuffer = [] ∧
    (waitingStep c evt).1.state = GameState.WAITING_FOR_INPUT ∧
    (waitingStep c evt).1.num1 = c.num1 ∧
    (waitingStep c evt).1.num2 = c.num2 ∧
    (waitingStep c evt).1.correctAnswer = c.correctAnswer ∧
    (waitingStep c evt).1.questionStr = c.questionStr ∧
    (waitingStep c evt).2 = [⟨220, 50⟩] ∧
    (⟨220, 50⟩ : Tone) ≠ (⟨440, 50⟩ : Tone) := by
  rw [waitingStep_star c evt hp hk]
  exact ⟨rfl, hs, rfl, rfl, rfl, rfl, rfl, by decide⟩

/-- Witness for C7: with buffer "3", pressing `*` yields buffer "" and the
clear tone, everything else unchanged. -/
theorem star_clears_buffer_witness :
    (waitingStep sampleCtx3 keyStar).1.answerBuffer = [] ∧
    (waitingStep sampleCtx3 keyStar).1.state = GameState.WAITING_FOR_INPUT ∧
    (waitingStep sampleCtx3 keyStar).1.num1 = sampleCtx3.num1 ∧
    (waitingStep sampleCtx3 keyStar).1.num2 = sampleCtx3.num2 ∧
    (waitingStep sampleCtx3 keyStar).1.correctAnswer = sampleCtx3.correctAnswer ∧
    (waitingStep sampleCtx3 keyStar).1.questionStr = sampleCtx3.questionStr ∧
    (waitingStep sampleCtx3 keyStar).2 = [⟨220, 50⟩] ∧
    (⟨220, 50⟩ : Tone) ≠ (⟨440, 50⟩ : Tone) :=
  star_clears_buffer sampleCtx3 keyStar rfl rfl (by decide)

lemma renderPhase_answerBuffer (d : GameCtx) :
    (renderPhase d).answerBuffer = d.answerBuffer := by
  unfold renderPhase
  split <;> rfl

lemma bufferInv_of_eq {d d' : GameCtx}
    (hbuf : d'.answerBuffer = d.answerBuffer) (h : BufferInv d) : BufferInv d' := by
  unfold BufferInv at h ⊢
  rw [hbuf]
  exact h

lemma bufferInv_empty (d : GameCtx) (h : d.answerBuffer = []) : BufferInv d := by
  unfold BufferInv
  rw [h]
  exact ⟨by simp [answerBufferSize], by simp⟩

lemma waitingStep_bufferInv (c : GameCtx) (evt : KeyEvent) (h : BufferInv c) :
    BufferInv (waitingStep c evt).1 := by
  by_cases hp : evt.pressed = true
  · by_cases hd : '0' ≤ keypad_key_map evt.row evt.col ∧ keypad_key_map evt.row evt.col ≤ '9'
    · by_cases hl : c.answerBuffer.length < answerBufferSize - 1
      · rw [waitingStep_digit c evt hp hd hl]
        refine ⟨?_, ?_⟩
        · simp only [List.length_append, List.length_singleton]
          omega
        · intro ch hch
          rcases List.mem_append.mp hch with hch | hch
          · exact h.2 ch hch
          · rw [List.mem_singleton.mp hch]
            exact hd
      · rw [waitingStep_digit_full c evt hp hd hl]
        exact h
    · by_cases hA : keypad_key_map evt.row evt.col = 'A'
      · rw [waitingStep_A c evt hp hA]
        exact h
      · by_cases hS : keypad_key_map evt.row evt.col = '*'
        · rw [waitingStep_star c evt hp hS]
          exact bufferInv_empty _ rfl
        · rw [waitingStep_other c evt hp hd hA hS]
          exact h
  · rw [waitingStep_not_pressed c evt (by simpa using hp)]
    exact h

/-- C3: one loop iteration preserves the buffer invariant (digits only,
length at most 9); a key that is neither a digit nor `*` never changes the
buffer; and the buffer is emptied by the new-question step and by `*`. -/
theorem buffer_invariant_preserved (c : GameCtx) (r1 r2 : Nat) (evt : KeyEvent)
    (h : BufferInv c) :
    BufferInv (loopStep c r1 r2 evt).1 ∧
    (∀ (d : GameCtx) (e : KeyEvent),
      ¬ ('0' ≤ keypad_key_map e.row e.col ∧ keypad_key_map e.row e.col ≤ '9') →
      keypad_key_map e.row e.col ≠ '*' →
      (waitingStep d e).1.answerBuffer = d.answerBuffer) ∧
    (∀ (s1 s2 : Nat) (d : GameCtx), (generateStep s1 s2 d).answerBuffer = []) ∧
    (∀ (d : GameCtx) (e : KeyEvent), e.pressed = true →
      keypad_key_map e.row e.col = '*' → (waitingStep d e).1.answerBuffer = []) := by
  refine ⟨?_, ?_, fun s1 s2 d => rfl, ?_⟩
  · unfold loopStep
    cases hst : c.state
    · exact bufferInv_of_eq (renderPhase_answerBuffer _) (bufferInv_empty _ rfl)
    · exact bufferInv_of_eq (renderPhase_answerBuffer _) (waitingStep_bufferInv c evt h)
    · refine bufferInv_of_eq (renderPhase_answerBuffer _) ?_
      rw [checkStep_eq]
      exact bufferInv_of_eq rfl h
  · intro d e hd hS
    by_cases hp : e.pressed = true
    · by_cases hA : keypad_key_map e.row e.col = 'A'
      · rw [waitingStep_A d e hp hA]
      · rw [waitingStep_other d e hp hd hA hS]
    · rw [waitingStep_not_pressed d e (by simpa using hp)]
  · intro d e hp hS
    rw [waitingStep_star d e hp hS]

/-- Witness for C3 at concrete inputs: the invariant survives a digit press
on the sample context, `#` leaves the buffer alone, and the generate step
and `*` empty it. -/
theorem buffer_invariant_preserved_witness :
    BufferInv (loopStep sampleCtx 1 2 key3).1 ∧
    (waitingStep sampleCtx keyHash).1.answerBuffer = sampleCtx.answerBuffer ∧
    (generateStep 1 2 sampleCtx).answerBuffer = [] ∧
    (waitingStep sampleCtx3 keyStar).1.answerBuffer = [] := by
  have h := buffer_invariant_preserved sampleCtx 1 2 key3 ⟨by decide, by decide⟩
  exact ⟨h.1, h.2.1 sampleCtx keyHash (by decide) (by decide),
    h.2.2.1 1 2 sampleCtx, h.2.2.2 sampleCtx3 keyStar rfl (by decide)⟩

/-- The base-10 value of a big-endian string of decimal digits; this is the
spec-side meaning of "parses the buffer as a base-10 integer", written with
Mathlib's `Nat.ofDigits` for comparison with the code-side `atoi`. -/
def decimalValue (s : List Char) : Nat :=
  Nat.ofDigits 10 ((s.map fun ch => ch.toNat - 48).reverse)

lemma foldl_digits (s : List Char) : ∀ acc : Nat,
    s.foldl (fun a ch => a * 10 + (ch.toNat - 48)) acc
      = acc * 10 ^ s.length + decimalValue s := by
  induction s with
  | nil => intro acc; simp [decimalValue]
  | cons c cs ih =>
    intro acc
    simp only [List.foldl_cons, decimalValue, List.map_cons, List.reverse_cons,
      List.length_cons]
    rw [ih, Nat.ofDigits_append, Nat.ofDigits_singleton]
    simp only [decimalValue, List.length_reverse, List.length_map]
    ring

lemma isDigit_of_bounds {ch : Char} (h : '0' ≤ ch ∧ ch ≤ '9') :
    ch.isDigit = true := by
  simp only [Char.isDigit, ge_iff_le, Bool.and_eq_true, decide_eq_true_eq]
  exact ⟨h.1, h.2⟩

lemma not_whitespace_of_bounds {ch : Char} (h : '0' ≤ ch ∧ ch ≤ '9') :
    ch.isWhitespace = false := by
  have h1 : (48 : UInt32) ≤ ch.val := h.1
  simp only [Char.isWhitespace, Bool.or_eq_false_iff, decide_eq_false_iff_not]
  refine ⟨⟨⟨?_, ?_⟩, ?_⟩, ?_⟩ <;> (rintro rfl; revert h1; decide)

/-- C5: `atoi` parses a string of decimal digits to its base-10 value; in
particular the empty buffer parses to 0 and leading zeros are ignored, e.g.
"042" parses to 42. -/
theorem atoi_digit_strings (s : List Char)
    (h : ∀ ch ∈ s, '0' ≤ ch ∧ ch ≤ '9') :
    atoi s = decimalValue s ∧ atoi [] = 0 ∧ atoi ['0', '4', '2'] = 42 := by
  refine ⟨?_, rfl, by decide⟩
  have hdw : s.dropWhile Char.isWhitespace = s := by
    cases s with
    | nil => rfl
    | cons c cs =>
      rw [List.dropWhile_cons_of_neg]
      rw [not_whitespace_of_bounds (h c (by simp))]
      simp
  have htw : s.takeWhile Char.isDigit = s :=
    List.takeWhile_eq_self_iff.mpr fun ch hch => isDigit_of_bounds (h ch hch)
  have hh1 : s.head? ≠ some '-' := by
    cases s with
    | nil => simp
    | cons c cs =>
      intro hc
      rw [List.head?_cons] at hc
      have hc2 : c = '-' := Option.some.inj hc
      have := (h c (by simp)).1
      rw [hc2] at this
      exact absurd this (by decide)
  have hh2 : s.head? ≠ some '+' := by
    cases s with
    | nil => simp
    | cons c cs =>
      intro hc
      rw [List.head?_cons] at hc
      have hc2 : c = '+' := Option.some.inj hc
      have := (h c (by simp)).1
      rw [hc2] at this
      exact absurd this (by decide)
  unfold atoi
  simp only [hdw, if_neg hh1, if_neg hh2, htw]
  rw [foldl_digits]
  simp

/-- Witness for C5: parsing "042" yields its decimal value 42. -/
theorem atoi_digit_strings_witness :
    atoi ['0', '4', '2'] = decimalValue ['0', '4', '2'] ∧
    atoi [] = 0 ∧ atoi ['0', '4', '2'] = 42 :=
  atoi_digit_strings ['0', '4', '2'] (by decide)

/-- The sample context with an empty buffer. -/
def emptyCtx : GameCtx := { sampleCtx with answerBuffer := [] }

/-- The context after `setup()`: zero-initialized globals, state
`GENERATE_NEW_QUESTION`, cleared buffer. -/
def initialCtx : GameCtx where
  state := GameState.GENERATE_NEW_QUESTION
  num1 := 0
  num2 := 0
  correctAnswer := 0
  questionStr := ""
  answerBuffer := []
  questionY := 20

lemma waitingStep_cases (c : GameCtx) (evt : KeyEvent) :
    (∃ k, waitingStep c evt =
        ({ c with answerBuffer := c.answerBuffer ++ [k] }, [⟨440, 50⟩])) ∨
    waitingStep c evt = ({ c with state := GameState.CHECK_ANSWER }, []) ∨
    waitingStep c evt = ({ c with answerBuffer := [] }, [⟨220, 50⟩]) ∨
    waitingStep c evt = (c, []) := by
  by_cases hp : evt.pressed = true
  · by_cases hd : '0' ≤ keypad_key_map evt.row evt.col ∧ keypad_key_map evt.row evt.col ≤ '9'
    · by_cases hl : c.answerBuffer.length < answerBufferSize - 1
      · exact Or.inl ⟨_, waitingStep_digit c evt hp hd hl⟩
      · exact Or.inr (Or.inr (Or.inr (waitingStep_digit_full c evt hp hd hl)))
    · by_cases hA : keypad_key_map evt.row evt.col = 'A'
      · exact Or.inr (Or.inl (waitingStep_A c evt hp hA))
      · by_cases hS : keypad_key_map evt.row evt.col = '*'
        · exact Or.inr (Or.inr (Or.inl (waitingStep_star c evt hp hS)))
        · exact Or.inr (Or.inr (Or.inr (waitingStep_other c evt hp hd hA hS)))
  · exact Or.inr (Or.inr (Or.inr (waitingStep_not_pressed c evt (by simpa using hp))))

/-- Counterexample to C8 as stated: the code has no press/release edge
detection, so the `3` key held down across two consecutive scan cycles
(no not-pressed scan in between) appends the digit twice. -/
theorem held_key_double_append :
    ((loopStep (loopStep emptyCtx 0 0 key3).1 0 0 key3).1).answerBuffer
      = ['3', '3'] := by decide

/-- C8 amended: the loop fires at most one logical event per scan cycle (at
most one appended character and at most one tone), and a scan with no key
down changes nothing; suppression of repeats relies only on the settle
delay, so a key held across consecutive pressed scans fires once per scan
rather than once per press-and-release. -/
theorem one_event_per_scan (c : GameCtx) (evt : KeyEvent) :
    (waitingStep c evt).1.answerBuffer.length ≤ c.answerBuffer.length + 1 ∧
    (waitingStep c evt).2.length ≤ 1 ∧
    (evt.pressed = false → waitingStep c evt = (c, [])) := by
  refine ⟨?_, ?_, fun hp => waitingStep_not_pressed c evt hp⟩
  · rcases waitingStep_cases c evt with ⟨k, hk⟩ | hk | hk | hk <;> rw [hk] <;>
      simp only [List.length_append, List.length_singleton, List.length_nil] <;> omega
  · rcases waitingStep_cases c evt with ⟨k, hk⟩ | hk | hk | hk <;> rw [hk] <;> simp

/-- Witness for the amended C8: a digit press on the sample context appends
at most one character with at most one tone, and a not-pressed scan is a
no-op. -/
theorem one_event_per_scan_witness :
    (waitingStep sampleCtx key3).1.answerBuffer.length ≤ sampleCtx.answerBuffer.length + 1 ∧
    (waitingStep sampleCtx key3).2.length ≤ 1 ∧
    waitingStep sampleCtx ⟨false, 0, 0⟩ = (sampleCtx, []) := by
  have h1 := one_event_per_scan sampleCtx key3
  have h2 := one_event_per_scan sampleCtx ⟨false, 0, 0⟩
  exact ⟨h1.1, h1.2.1, h2.2.2 rfl⟩

/-- C9: every generated question has `correctAnswer` in [0, 1998], whose
decimal representation has at most 4 digits, hence fits in the 9-character
answer buffer. -/
theorem correctAnswer_fits_buffer (r1 r2 : Nat) (c : GameCtx) :
    0 ≤ (generateQuestion r1 r2 c).correctAnswer ∧
    (generateQuestion r1 r2 c).correctAnswer ≤ 1998 ∧
    (Nat.digits 10 (generateQuestion r1 r2 c).correctAnswer.toNat).length ≤ 4 ∧
    (Nat.digits 10 (generateQuestion r1 r2 c).correctAnswer.toNat).length
      ≤ answerBufferSize - 1 := by
  have h1 : r1 % 1000 < 1000 := Nat.mod_lt _ (by norm_num)
  have h2 : r2 % 1000 < 1000 := Nat.mod_lt _ (by norm_num)
  have hca : (generateQuestion r1 r2 c).correctAnswer
      = ((r1 % 1000 : Nat) : Int) + ((r2 % 1000 : Nat) : Int) := rfl
  have htn : (generateQuestion r1 r2 c).correctAnswer.toNat
      = r1 % 1000 + r2 % 1000 := by rw [hca]; omega
  have hkey : ∀ n : ℕ, n ≤ 1998 → (Nat.digits 10 n).length ≤ 4 := by
    intro n hn
    by_contra hlen
    push_neg at hlen
    rcases Nat.eq_zero_or_pos n with rfl | hpos
    · simp at hlen
    · have h10 := Nat.base_pow_length_digits_le 10 n (by norm_num) (by omega)
      have h5 : (100000 : ℕ) ≤ 10 ^ (Nat.digits 10 n).length := by
        calc (100000 : ℕ) = 10 ^ 5 := by norm_num
        _ ≤ 10 ^ (Nat.digits 10 n).length := Nat.pow_le_pow_right (by norm_num) hlen
      omega
  refine ⟨by rw [hca]; omega, by rw [hca]; omega, ?_, ?_⟩
  · rw [htn]; exact hkey _ (by omega)
  · rw [htn]
    have := hkey (r1 % 1000 + r2 % 1000) (by omega)
    simp only [answerBufferSize]
    omega

/-- C10: pressing `A` with an empty buffer enters `CHECK_ANSWER` with the
parsed answer 0, so the empty submission is judged correct exactly when
both operands of the current question are 0. -/
theorem empty_submit_zero (c : GameCtx) (evt : KeyEvent)
    (hs : c.state = GameState.WAITING_FOR_INPUT)
    (hb : c.answerBuffer = [])
    (hp : evt.pressed = true)
    (hk : keypad_key_map evt.row evt.col = 'A')
    (hq : c.correctAnswer = c.num1 + c.num2)
    (hn1 : 0 ≤ c.num1) (hn2 : 0 ≤ c.num2) :
    (waitingStep c evt).1.state = GameState.CHECK_ANSWER ∧
    (waitingStep c evt).1.answerBuffer = [] ∧
    atoi (waitingStep c evt).1.answerBuffer = 0 ∧
    ((checkStep (waitingStep c evt).1).2 = successTones ↔
      c.num1 = 0 ∧ c.num2 = 0) := by
  rw [waitingStep_A c evt hp hk]
  have e1 : ({ c with state := GameState.CHECK_ANSWER } : GameCtx).answerBuffer
      = c.answerBuffer := rfl
  have e2 : ({ c with state := GameState.CHECK_ANSWER } : GameCtx).correctAnswer
      = c.correctAnswer := rfl
  have hatoi : atoi ({ c with state := GameState.CHECK_ANSWER } : GameCtx).answerBuffer
      = 0 := by rw [e1, hb]; rfl
  refine ⟨rfl, hb, hatoi, ?_⟩
  rw [checkStep_eq]
  have hcond : (atoi ({ c with state := GameState.CHECK_ANSWER } : GameCtx).answerBuffer
      = ({ c with state := GameState.CHECK_ANSWER } : GameCtx).correctAnswer)
      ↔ (c.num1 = 0 ∧ c.num2 = 0) := by
    rw [hatoi, e2, hq]
    constructor
    · intro h0
      constructor <;> omega
    · rintro ⟨ha, hb2⟩
      omega
  by_cases hcnd : atoi ({ c with state := GameState.CHECK_ANSWER } : GameCtx).answerBuffer
      = ({ c with state := GameState.CHECK_ANSWER } : GameCtx).correctAnswer
  · rw [if_pos hcnd]
    simp [hcond.mp hcnd]
  · rw [if_neg hcnd]
    constructor
    · intro hfe
      have hfe2 : failTones = successTones := hfe
      exact absurd hfe2 (by decide)
    · intro hrhs
      exact absurd (hcond.mpr hrhs) hcnd

/-- Witness for C10: after generating the question 0 + 0, submitting the
empty buffer with `A` takes the success path. -/
theorem empty_submit_zero_witness :
    (waitingStep (generateStep 0 0 initialCtx) keyA).1.state = GameState.CHECK_ANSWER ∧
    (waitingStep (generateStep 0 0 initialCtx) keyA).1.answerBuffer = [] ∧
    atoi (waitingStep (generateStep 0 0 initialCtx) keyA).1.answerBuffer = 0 ∧
    ((checkStep (waitingStep (generateStep 0 0 initialCtx) keyA).1).2 = successTones ↔
      (generateStep 0 0 initialCtx).num1 = 0 ∧ (generateStep 0 0 initialCtx).num2 = 0) :=
  empty_submit_zero (generateStep 0 0 initialCtx) keyA rfl rfl rfl (by decide)
    (by decide) (by decide) (by decide)

lemma approach_dist (x t d : ℚ) (hd : 0 ≤ d) :
    |t - approach x t d| = max (|t - x| - d) 0 := by
  unfold approach
  by_cases h : |t - x| ≤ d
  · rw [if_pos h, sub_self, abs_zero]
    exact (max_eq_right (sub_nonpos.mpr h)).symm
  · rw [if_neg h]
    push_neg at h
    by_cases hx : x < t
    · rw [if_pos hx]
      have habs : |t - x| = t - x := abs_of_pos (by linarith)
      have h1 : 0 < t - x - d := by rw [habs] at h; linarith
      rw [show t - (x + d) = t - x - d by ring, abs_of_pos h1, habs]
      exact (max_eq_left (by linarith)).symm
    · rw [if_neg hx]
      push_neg at hx
      have habs : |t - x| = x - t := by
        rw [abs_sub_comm]
        exact abs_of_nonneg (by linarith)
      have h1 : 0 < x - t - d := by rw [habs] at h; linarith
      rw [show t - (x - d) = -(x - t - d) by ring, abs_neg, abs_of_pos h1, habs]
      exact (max_eq_left (by linarith)).symm

lemma approach_between {lo hi x t d : ℚ} (hd : 0 ≤ d)
    (hx : lo ≤ x ∧ x ≤ hi) (ht : lo ≤ t ∧ t ≤ hi) :
    lo ≤ approach x t d ∧ approach x t d ≤ hi := by
  unfold approach
  by_cases h : |t - x| ≤ d
  · rw [if_pos h]
    exact ht
  · rw [if_neg h]
    push_neg at h
    by_cases hlt : x < t
    · rw [if_pos hlt]
      have habs : |t - x| = t - x := abs_of_pos (by linarith)
      rw [habs] at h
      exact ⟨by linarith [hx.1], by linarith [ht.2]⟩
    · rw [if_neg hlt]
      push_neg at hlt
      have habs : |t - x| = x - t := by
        rw [abs_sub_comm]
        exact abs_of_nonneg (by linarith)
      rw [habs] at h
      exact ⟨by linarith [ht.1], by linarith [hx.2]⟩

lemma approachIter_dist (x t d : ℚ) (hd : 0 ≤ d) (n : ℕ) :
    |t - approachIter x t d n| = max (|t - x| - n * d) 0 := by
  induction n with
  | zero => simp [approachIter]
  | succ n ih =>
    rw [approachIter, approach_dist _ _ _ hd, ih]
    have hc : ((n + 1 : ℕ) : ℚ) * d = (n : ℚ) * d + d := by push_cast; ring
    rcases le_total (|t - x| - n * d) 0 with h | h
    · rw [max_eq_right h, max_eq_right (by linarith),
        max_eq_right (by rw [hc]; linarith)]
    · rw [max_eq_left h]
      congr 1
      rw [hc]
      ring

lemma approachIter_eventually (x t d : ℚ) (hd : 0 < d) :
    ∃ N : ℕ, ∀ n, N ≤ n → approachIter x t d n = t := by
  obtain ⟨N, hN⟩ := exists_nat_ge (|t - x| / d)
  refine ⟨N, fun n hn => ?_⟩
  have hnn : (N : ℚ) ≤ (n : ℚ) := by exact_mod_cast hn
  have h1 : |t - x| ≤ (n : ℚ) * d := by
    have hdiv : |t - x| / d ≤ (n : ℚ) := le_trans hN hnn
    calc |t - x| = (|t - x| / d) * d := by field_simp
    _ ≤ (n : ℚ) * d := mul_le_mul_of_nonneg_right hdiv hd.le
  have h0 : |t - approachIter x t d n| = 0 := by
    rw [approachIter_dist x t d hd.le n, max_eq_right (by linarith)]
  have h2 : t - approachIter x t d n = 0 := abs_eq_zero.mp h0
  linarith

/-- C6 (modelled from the spec, over exact rationals): `approach` snaps to
the target when within `maxDelta`, otherwise moves exactly `maxDelta`
toward it; iterating it keeps the distance to the target non-increasing,
never overshoots past the target, and reaches the target after finitely
many steps. -/
theorem approach_spec (current target maxDelta : ℚ) (hd : 0 < maxDelta) :
    (|target - current| ≤ maxDelta → approach current target maxDelta = target) ∧
    (maxDelta < |target - current| →
      |target - approach current target maxDelta| = |target - current| - maxDelta ∧
      |approach current target maxDelta - current| = maxDelta) ∧
    (∀ n : ℕ, |target - approachIter current target maxDelta (n + 1)|
        ≤ |target - approachIter current target maxDelta n|) ∧
    (∀ n : ℕ, min current target ≤ approachIter current target maxDelta n ∧
        approachIter current target maxDelta n ≤ max current target) ∧
    (∃ N : ℕ, ∀ n, N ≤ n → approachIter current target maxDelta n = target) := by
  refine ⟨?_, ?_, ?_, ?_, approachIter_eventually current target maxDelta hd⟩
  · intro h
    unfold approach
    rw [if_pos h]
  · intro h
    constructor
    · rw [approach_dist _ _ _ hd.le]
      exact max_eq_left (by linarith)
    · unfold approach
      rw [if_neg (not_le.mpr h)]
      by_cases hlt : current < target
      · rw [if_pos hlt, show current + maxDelta - current = maxDelta by ring]
        exact abs_of_pos hd
      · rw [if_neg hlt, show current - maxDelta - current = -maxDelta by ring,
          abs_neg]
        exact abs_of_pos hd
  · intro n
    rw [approachIter_dist _ _ _ hd.le, approachIter_dist _ _ _ hd.le]
    have hc : ((n + 1 : ℕ) : ℚ) * maxDelta = (n : ℚ) * maxDelta + maxDelta := by
      push_cast
      ring
    exact max_le_max (by rw [hc]; linarith) le_rfl
  · intro n
    induction n with
    | zero => exact ⟨min_le_left _ _, le_max_left _ _⟩
    | succ n ih =>
      rw [approachIter]
      exact approach_between hd.le ih ⟨min_le_right _ _, le_max_right _ _⟩

/-- Witness for C6: from 0 toward 5 with step 2, one call within range
snaps (from 3), and one call out of range moves exactly 2 closer. -/
theorem approach_spec_witness :
    approach 3 5 2 = 5 ∧ |(5 : ℚ) - approach 0 5 2| = |(5 : ℚ) - 0| - 2 :=
  ⟨(approach_spec 3 5 2 (by norm_num)).1 (by norm_num),
    ((approach_spec 0 5 2 (by norm_num)).2.1 (by norm_num)).1⟩

end PatroSum
